import Mathlib

/-!
Verification development for the Inventory-System backend (NestJS + Firestore).

The embedding models the Document Store Adapter (firestore.service.ts), the
Product Catalog Service (product.service.ts), the Token Service
(auth.service.ts) and the Access Guard (global-auth.guard.ts).  Strings are
modelled as lists of Unicode code points (List Nat), documents as association
lists from a fixed field-key type to values, and the external document store
as an id-indexed list of documents.  Each store-touching operation also
returns the list of store accesses it performed, so that claims about
ordering of reads and writes can be stated.
-/

namespace Inventory

/-- Field keys occurring in product documents.  The adapter is generic over
field names; the product schema is flat with exactly these keys, so the
embedding fixes them as an enumeration. -/
inductive FKey where
  | name
  | description
  | price
  | stock
  | category
  | nameSearch
deriving DecidableEq, Repr

/-- Firestore field values used by this domain: integers (price, stock) and
strings (name, description, category, nameSearch).  A string is a list of
Unicode code points, mirroring the JS string the code manipulates. -/
inductive Value where
  | int (n : Int)
  | str (s : List Nat)
deriving DecidableEq, Repr

/-- A document is a field map, modelled as an association list in field
insertion order (JS object key order). -/
abbrev Doc := List (FKey × Value)

/-- First-match association lookup, the semantics of reading a JS object
property or a Firestore document field. -/
def lookupField : Doc → FKey → Option Value
  | [], _ => none
  | (k, v) :: rest, key => if k = key then some v else lookupField rest key

/-- Field-wise merge: the semantics both of the JS spread
`{...base, ...upd}` and of a Firestore partial `update(upd)` on a stored
document `base`.  Keys of `upd` overwrite; keys only in `base` survive; keys
only in `upd` are appended. -/
def overlay (base upd : Doc) : Doc :=
  (base.map (fun p =>
    match lookupField upd p.1 with
    | some v => (p.1, v)
    | none => p))
  ++ upd.filter (fun p => (lookupField base p.1).isNone)

/-- Lowercasing of one code point, the ASCII case of the JS
`String.prototype.toLowerCase` that the service applies to product names. -/
def lowerChar (c : Nat) : Nat :=
  if 65 ≤ c ∧ c ≤ 90 then c + 32 else c

/-- Lowercasing of a whole string (code-point list). -/
def toLower (s : List Nat) : List Nat :=
  s.map lowerChar

/-- Lexicographic less-or-equal on code-point lists: the order Firestore uses
for string range filters and string sorting. -/
def strLe : List Nat → List Nat → Bool
  | [], _ => true
  | _ :: _, [] => false
  | a :: as, b :: bs =>
    if a < b then true
    else if b < a then false
    else strLe as bs

/-- The high sentinel code point U+F8FF appended to the lower range bound in
the prefix-search trick of `getCollectionWithOptions`. -/
def sentinel : Nat := 0xf8ff

/-- The filter record assembled by `ProductService.findAll` and consumed by
`FirestoreService.getCollectionWithOptions`.  A `none` entry means the filter
is absent. -/
structure Filters where
  name : Option (List Nat) := none
  category : Option (List Nat) := none
  minPrice : Option Int := none
  maxPrice : Option Int := none
deriving DecidableEq, Repr

/-- Read a field as a string, the shape required for a string-valued
Firestore `where` clause to match a document. -/
def fieldStr (d : Doc) (k : FKey) : Option (List Nat) :=
  match lookupField d k with
  | some (Value.str s) => some s
  | _ => none

/-- Read a field as an integer, the shape required for a numeric Firestore
`where` clause to match a document. -/
def fieldInt (d : Doc) (k : FKey) : Option Int :=
  match lookupField d k with
  | some (Value.int n) => some n
  | _ => none

/-- Conjunction of the `where` clauses that `getCollectionWithOptions` chains
onto the query for the given filters: the name filter becomes the range pair
`nameSearch >= lower` and `nameSearch <= lower ++ [sentinel]` with
`lower = toLower name`; `category` is an equality clause; `minPrice` and
`maxPrice` are inclusive bounds on `price`.  A clause only matches documents
that carry the field with the comparable type, per the document-store
contract. -/
def matchesFilters (f : Filters) (d : Doc) : Bool :=
  (match f.name with
   | none => true
   | some v =>
     match fieldStr d FKey.nameSearch with
     | some s => strLe (toLower v) s && strLe s (toLower v ++ [sentinel])
     | none => false) &&
  (match f.category with
   | none => true
   | some c => lookupField d FKey.category == some (Value.str c)) &&
  (match f.minPrice with
   | none => true
   | some m =>
     match fieldInt d FKey.price with
     | some p => decide (m ≤ p)
     | none => false) &&
  (match f.maxPrice with
   | none => true
   | some m =>
     match fieldInt d FKey.price with
     | some p => decide (p ≤ m)
     | none => false)

/-- Sort order enumeration from query-product.dto.ts. -/
inductive SortOrder where
  | asc
  | desc
deriving DecidableEq, Repr

/-- Firestore value order restricted to the value types of this domain:
numbers sort before strings, numbers numerically, strings lexicographically. -/
def valueLe : Value → Value → Bool
  | Value.int a, Value.int b => decide (a ≤ b)
  | Value.int _, Value.str _ => true
  | Value.str _, Value.int _ => false
  | Value.str a, Value.str b => strLe a b

/-- Order on optional sort keys: a missing field sorts first. -/
def fieldLe : Option Value → Option Value → Bool
  | none, _ => true
  | some _, none => false
  | some a, some b => valueLe a b

/-- Boolean comparator on (id, document) pairs induced by `orderBy(field,
direction)`: compare the documents at the sort field, flipped for
descending order. -/
def docLe (f : FKey) (o : SortOrder) (a b : Nat × Doc) : Bool :=
  match o with
  | SortOrder.asc => fieldLe (lookupField a.2 f) (lookupField b.2 f)
  | SortOrder.desc => fieldLe (lookupField b.2 f) (lookupField a.2 f)

/-- The comparator as a relation, for use with Mathlib insertion sort. -/
def docRel (f : FKey) (o : SortOrder) : Nat × Doc → Nat × Doc → Prop :=
  fun a b => docLe f o a b = true

instance instDecDocRel (f : FKey) (o : SortOrder) : DecidableRel (docRel f o) :=
  fun _a _b => Bool.decEq _ _

/-- The external document store: documents of the products collection keyed
by store-assigned ids, in creation order, plus the next fresh id. -/
structure Store where
  docs : List (Nat × Doc) := []
  nextId : Nat := 0
deriving DecidableEq, Repr

/-- One physical store access, recorded in traces so that claims about when
the store is read or written can be stated. -/
inductive StoreOp where
  | queryGet
  | docGet (id : Nat)
  | docAdd (id : Nat)
  | docUpdate (id : Nat)
  | docDelete (id : Nat)
deriving DecidableEq, Repr

/-- Error taxonomy of the service layer: BadRequestException,
NotFoundException, UnauthorizedException. -/
inductive AppError where
  | badRequest
  | notFound
  | unauthorized
deriving DecidableEq, Repr

/-- Result shape of `getCollectionWithOptions`: the page of (id, document)
pairs plus the pre-pagination match count. -/
structure QueryResult where
  items : List (Nat × Doc)
  total : Nat
deriving DecidableEq, Repr

/-- Options record of `getCollectionWithOptions`, with the default values
the destructuring in firestore.service.ts applies. -/
structure QueryOptions where
  page : Nat := 1
  limit : Nat := 10
  filters : Filters := {}
  sortBy : FKey := FKey.name
  sortOrder : SortOrder := SortOrder.asc
deriving DecidableEq, Repr

/-- First-match lookup of an id in the id-indexed document list. -/
def lookupAssoc : List (Nat × Doc) → Nat → Option Doc
  | [], _ => none
  | p :: rest, id => if p.1 = id then some p.2 else lookupAssoc rest id

/-- Fetch a raw document by id, the semantics of
`db.collection(c).doc(id).get()`. -/
def lookupDoc (s : Store) (id : Nat) : Option Doc :=
  lookupAssoc s.docs id

/-- Replace the document stored under an id, leaving the rest of the store
untouched. -/
def replaceDoc (s : Store) (id : Nat) (d : Doc) : Store :=
  ⟨s.docs.map (fun p => if p.1 = id then (p.1, d) else p), s.nextId⟩

/-- FirestoreService.addDocument: `collection.add(data)` stores the data
under a fresh store-assigned id and returns that id. -/
def addDocument (s : Store) (d : Doc) : Nat × Store × List StoreOp :=
  (s.nextId, ⟨s.docs ++ [(s.nextId, d)], s.nextId + 1⟩, [StoreOp.docAdd s.nextId])

/-- FirestoreService.getDocument: fetch by id, returning null (here `none`)
when the document does not exist, else the document data (the id is carried
separately from the field map). -/
def getDocument (s : Store) (id : Nat) : Option Doc × List StoreOp :=
  (lookupDoc s id, [StoreOp.docGet id])

/-- FirestoreService.updateDocument: check existence first and fail with
NotFoundException when absent; otherwise merge the partial data into the
stored document.  Returns the resulting store and the access trace. -/
def updateDocument (s : Store) (id : Nat) (data : Doc) :
    Except AppError Unit × Store × List StoreOp :=
  match lookupDoc s id with
  | none => (Except.error AppError.notFound, s, [StoreOp.docGet id])
  | some doc =>
    (Except.ok (), replaceDoc s id (overlay doc data),
      [StoreOp.docGet id, StoreOp.docUpdate id])

/-- FirestoreService.deleteDocument: check existence first and fail with
NotFoundException when absent; otherwise remove the document. -/
def deleteDocument (s : Store) (id : Nat) :
    Except AppError Unit × Store × List StoreOp :=
  match lookupDoc s id with
  | none => (Except.error AppError.notFound, s, [StoreOp.docGet id])
  | some _ =>
    (Except.ok (), ⟨s.docs.filter (fun p => p.1 != id), s.nextId⟩,
      [StoreOp.docGet id, StoreOp.docDelete id])

/-- FirestoreService.getCollectionWithOptions: validate the pagination
parameters before any store access, then run the filtered query once for the
total count, apply `orderBy(sortBy, sortOrder)` and skip/limit pagination,
and return items plus total.  Query execution follows the document-store
contract: conjunctive filters, a stable sort on the single sort key, then
`offset` skips and `limit` caps (the builder applies limit and offset in
either order with the same skip-then-take meaning). -/
def getCollectionWithOptions (s : Store) (o : QueryOptions) :
    Except AppError QueryResult × List StoreOp :=
  if o.page < 1 ∨ o.limit < 1 ∨ 100 < o.limit then
    (Except.error AppError.badRequest, [])
  else
    let matched := s.docs.filter (fun p => matchesFilters o.filters p.2)
    let total := matched.length
    let sorted := List.insertionSort (docRel o.sortBy o.sortOrder) matched
    let offset := (o.page - 1) * o.limit
    let items := (sorted.drop offset).take o.limit
    (Except.ok ⟨items, total⟩, [StoreOp.queryGet, StoreOp.queryGet])

/-- Valid product creation input (create-product.dto.ts): name, description,
category as strings, price and stock as integers.  The optional internal
`nameSearch` property of the DTO class is stripped by the whitelisting
validation pipe before the service runs, so it is not part of the input. -/
structure CreateProductDto where
  name : List Nat
  description : List Nat
  price : Int
  stock : Int
  category : List Nat
deriving DecidableEq, Repr

/-- Partial update input (update-product.dto.ts = PartialType of the create
DTO): every caller-visible field optional. -/
structure UpdateProductDto where
  name : Option (List Nat) := none
  description : Option (List Nat) := none
  price : Option Int := none
  stock : Option Int := none
  category : Option (List Nat) := none
deriving DecidableEq, Repr

/-- The field map carried by a create DTO, in declaration order: the
semantics of spreading `createProductDto` into an object literal. -/
def dtoDoc (p : CreateProductDto) : Doc :=
  [(FKey.name, Value.str p.name),
   (FKey.description, Value.str p.description),
   (FKey.price, Value.int p.price),
   (FKey.stock, Value.int p.stock),
   (FKey.category, Value.str p.category)]

/-- The field map carried by an update DTO: the semantics of spreading
`updateProductDto`, keeping only the properties that are present. -/
def updDoc (u : UpdateProductDto) : Doc :=
  (match u.name with | some v => [(FKey.name, Value.str v)] | none => []) ++
  (match u.description with | some v => [(FKey.description, Value.str v)] | none => []) ++
  (match u.price with | some v => [(FKey.price, Value.int v)] | none => []) ++
  (match u.stock with | some v => [(FKey.stock, Value.int v)] | none => []) ++
  (match u.category with | some v => [(FKey.category, Value.str v)] | none => [])

/-- Data written by ProductService.create: the DTO fields plus the derived
`nameSearch` field holding the lowercased name. -/
def dataWithSearchFields (p : CreateProductDto) : Doc :=
  dtoDoc p ++ [(FKey.nameSearch, Value.str (toLower p.name))]

/-- Data written by ProductService.update: the spread of the update DTO,
with `nameSearch` re-derived when the DTO carries a name.  The guard is the
JS truthiness test `if (updateProductDto.name)`, which an empty string
fails. -/
def dataToUpdate (u : UpdateProductDto) : Doc :=
  match u.name with
  | some n =>
    if n = [] then updDoc u
    else updDoc u ++ [(FKey.nameSearch, Value.str (toLower n))]
  | none => updDoc u

/-- ProductService.create: derive the search field, delegate to the adapter
add, and return the store-assigned id with the caller-supplied fields (the
returned view spreads the DTO, not the stored data, so it carries no
`nameSearch`). -/
def create (s : Store) (p : CreateProductDto) :
    (Nat × Doc) × Store × List StoreOp :=
  match addDocument s (dataWithSearchFields p) with
  | (id, s2, tr) => ((id, dtoDoc p), s2, tr)

/-- ProductService.findOne: fetch by id and fail with NotFoundException when
the adapter returns null; on success the document data (including every
stored field) is returned together with its id. -/
def findOne (s : Store) (id : Nat) :
    Except AppError (Nat × Doc) × List StoreOp :=
  match getDocument s id with
  | (none, tr) => (Except.error AppError.notFound, tr)
  | (some d, tr) => (Except.ok (id, d), tr)

/-- ProductService.update: fetch-then-check existence (NotFound raised
before any write), re-derive the search field when the DTO carries a name,
delegate to the adapter update, and return the client-assembled merged view
`{id, ...product, ...updateProductDto}` built from the document fetched
before the write. -/
def update (s : Store) (id : Nat) (u : UpdateProductDto) :
    Except AppError (Nat × Doc) × Store × List StoreOp :=
  match getDocument s id with
  | (none, tr1) => (Except.error AppError.notFound, s, tr1)
  | (some product, tr1) =>
    match updateDocument s id (dataToUpdate u) with
    | (Except.error e, s2, tr2) => (Except.error e, s2, tr1 ++ tr2)
    | (Except.ok _, s2, tr2) =>
      (Except.ok (id, overlay product (updDoc u)), s2, tr1 ++ tr2)

/-- ProductService.remove: fetch-then-check existence (NotFound raised
before any write), delegate to the adapter delete, and return
`{id, deleted: true}`. -/
def remove (s : Store) (id : Nat) :
    Except AppError (Nat × Bool) × Store × List StoreOp :=
  match getDocument s id with
  | (none, tr1) => (Except.error AppError.notFound, s, tr1)
  | (some _, tr1) =>
    match deleteDocument s id with
    | (Except.error e, s2, tr2) => (Except.error e, s2, tr1 ++ tr2)
    | (Except.ok _, s2, tr2) => (Except.ok (id, true), s2, tr1 ++ tr2)

/-- Query parameters of ProductService.findAll (query-product.dto.ts), with
the DTO default values. -/
structure QueryProductDto where
  page : Nat := 1
  limit : Nat := 10
  name : Option (List Nat) := none
  category : Option (List Nat) := none
  minPrice : Option Int := none
  maxPrice : Option Int := none
  sortBy : FKey := FKey.name
  sortOrder : SortOrder := SortOrder.asc
deriving DecidableEq, Repr

/-- Paginated response envelope assembled by findAll. -/
structure Paginated where
  items : List (Nat × Doc)
  total : Nat
  page : Nat
  limit : Nat
  totalPages : Nat
  hasNextPage : Bool
  hasPreviousPage : Bool
deriving DecidableEq, Repr

/-- The filter record findAll builds from the query: name and category are
added under JS truthiness (an empty string adds no filter), the price bounds
whenever they are defined. -/
def buildFilters (q : QueryProductDto) : Filters :=
  { name := match q.name with
      | some n => if n = [] then none else some n
      | none => none,
    category := match q.category with
      | some c => if c = [] then none else some c
      | none => none,
    minPrice := q.minPrice,
    maxPrice := q.maxPrice }

/-- Ceiling division on naturals: the exact value of
`Math.ceil(total / limit)` for nonnegative integers and limit >= 1. -/
def ceilNat (a b : Nat) : Nat := (a + b - 1) / b

/-- ProductService.findAll: map the query to the adapter call, then attach
the pagination metadata `totalPages = ceil(total / limit)`,
`hasNextPage = page < totalPages`, `hasPreviousPage = page > 1`. -/
def findAll (s : Store) (q : QueryProductDto) : Except AppError Paginated :=
  match (getCollectionWithOptions s
      ⟨q.page, q.limit, buildFilters q, q.sortBy, q.sortOrder⟩).1 with
  | Except.error e => Except.error e
  | Except.ok res =>
    let totalPages := ceilNat res.total q.limit
    Except.ok ⟨res.items, res.total, q.page, q.limit, totalPages,
      decide (q.page < totalPages), decide (1 < q.page)⟩

/-- One configured admin identity (auth.service.ts). -/
structure AdminUser where
  username : List Nat
  password : List Nat
  isAdmin : Bool
deriving DecidableEq, Repr

/-- Environment configuration feeding the AuthService constructor: the four
optional admin credential variables. -/
structure AuthConfig where
  admin1Username : Option (List Nat) := none
  admin1Password : Option (List Nat) := none
  admin2Username : Option (List Nat) := none
  admin2Password : Option (List Nat) := none
deriving DecidableEq, Repr

/-- Code points of the default username admin1. -/
def admin1Default : List Nat := [97, 100, 109, 105, 110, 49]

/-- Code points of the default username admin2. -/
def admin2Default : List Nat := [97, 100, 109, 105, 110, 50]

/-- The admin list the AuthService constructor builds: configured usernames
with fallback defaults, configured passwords with fallback empty string,
isAdmin true for both. -/
def adminUsers (cfg : AuthConfig) : List AdminUser :=
  [⟨cfg.admin1Username.getD admin1Default, cfg.admin1Password.getD [], true⟩,
   ⟨cfg.admin2Username.getD admin2Default, cfg.admin2Password.getD [], true⟩]

/-- JWT payload signed at login: `{username, isAdmin}`. -/
structure JwtPayload where
  username : List Nat
  isAdmin : Bool
deriving DecidableEq, Repr

/-- A signed token, modelling `jwtService.sign(payload)` as an injective
constructor over the payload. -/
inductive Token where
  | signed (payload : JwtPayload)
deriving DecidableEq, Repr

/-- Successful login response `{access_token, username}`. -/
structure LoginResult where
  accessToken : Token
  username : List Nat
deriving DecidableEq, Repr

/-- AuthService.validateUser: find an exact username and password match in
the configured admin list; otherwise throw UnauthorizedException with the
single Invalid-credentials failure mode. -/
def validateUser (cfg : AuthConfig) (username password : List Nat) :
    Except AppError AdminUser :=
  match (adminUsers cfg).find?
      (fun u => u.username == username && u.password == password) with
  | some u => Except.ok u
  | none => Except.error AppError.unauthorized

/-- AuthService.login: validate the credentials, sign `{username, isAdmin}`
and return `{access_token, username}`; validation failures propagate
unchanged. -/
def login (cfg : AuthConfig) (username password : List Nat) :
    Except AppError LoginResult :=
  match validateUser cfg username password with
  | Except.error e => Except.error e
  | Except.ok u =>
    Except.ok ⟨Token.signed ⟨u.username, u.isAdmin⟩, u.username⟩

/-- The ways a bearer token can be presented on a request, as the Access
Guard distinguishes them. -/
inductive TokenPresentation where
  | missing
  | malformed
  | expired
  | invalidSignature
  | valid (payload : JwtPayload)
deriving DecidableEq, Repr

/-- One inbound request as the guard sees it: whether the target handler is
tagged public, the presented token, and the identity attached so far. -/
structure RequestCtx where
  isPublic : Bool
  token : TokenPresentation
  user : Option JwtPayload := none
deriving DecidableEq, Repr

/-- Modelled from the spec: token verification by the Token Service
(jwt-auth.guard.ts is not part of the provided sources).  Verification
succeeds exactly on a well-formed, unexpired token with a valid signature,
yielding the decoded payload; it fails on a missing, malformed, expired or
invalid-signature token. -/
def verifyToken : TokenPresentation → Option JwtPayload
  | TokenPresentation.valid p => some p
  | _ => none

/-- Modelled from the spec: JwtAuthGuard.canActivate (the file is not under
the provided sources; section 4.2 of the spec describes it).  It requires a
bearer token, verifies it via the Token Service, attaches the decoded
identity to the request context on success, and rejects with Unauthorized on
failure. -/
def jwtCanActivate (req : RequestCtx) : Except AppError RequestCtx :=
  match verifyToken req.token with
  | some p => Except.ok { req with user := some p }
  | none => Except.error AppError.unauthorized

/-- GlobalAuthGuard.canActivate: when the handler or class is tagged public,
allow unconditionally; otherwise defer to the JWT guard. -/
def canActivate (req : RequestCtx) : Except AppError RequestCtx :=
  if req.isPublic then Except.ok req
  else jwtCanActivate req

/-- The documents of the store matching the conjunction of the filters a
query carries, in store order: the set whose count the adapter reports as
the total. -/
def matchedDocs (s : Store) (q : QueryProductDto) : List (Nat × Doc) :=
  s.docs.filter (fun p => matchesFilters (buildFilters q) p.2)

/-- The matching documents sorted by the chosen sort field in the chosen
order. -/
def sortedMatched (s : Store) (q : QueryProductDto) : List (Nat × Doc) :=
  List.insertionSort (docRel q.sortBy q.sortOrder) (matchedDocs s q)

/-- Lexicographic order is reflexive. -/
theorem strLe_refl (a : List Nat) : strLe a a = true := by
  induction a with
  | nil => rfl
  | cons c cs ih => simp [strLe, ih]

/-- Lexicographic order is total. -/
theorem strLe_total (a b : List Nat) : strLe a b = true ∨ strLe b a = true := by
  induction a generalizing b with
  | nil => left; rfl
  | cons c cs ih =>
    cases b with
    | nil => right; rfl
    | cons d ds =>
      rcases Nat.lt_trichotomy c d with h | h | h
      · left; simp [strLe, h]
      · subst h
        rcases ih ds with h2 | h2
        · left; simp [strLe, h2]
        · right; simp [strLe, h2]
      · right; simp [strLe, h]

/-- Lexicographic order is transitive. -/
theorem strLe_trans {a b c : List Nat} (h1 : strLe a b = true)
    (h2 : strLe b c = true) : strLe a c = true := by
  induction a generalizing b c with
  | nil => rfl
  | cons x xs ih =>
    cases b with
    | nil => simp [strLe] at h1
    | cons y ys =>
      cases c with
      | nil => simp [strLe] at h2
      | cons z zs =>
        simp only [strLe] at h1 h2 ⊢
        rcases Nat.lt_trichotomy x y with hxy | hxy | hxy
        · rcases Nat.lt_trichotomy y z with hyz | hyz | hyz
          · simp [Nat.lt_trans hxy hyz]
          · subst hyz; simp [hxy]
          · simp [hyz, Nat.not_lt.mpr (Nat.le_of_lt hyz)] at h2
        · subst hxy
          rcases Nat.lt_trichotomy x z with hyz | hyz | hyz
          · simp [hyz]
          · subst hyz
            simp only [Nat.lt_irrefl, if_false] at h1 h2 ⊢
            exact ih h1 h2
          · simp [hyz, Nat.not_lt.mpr (Nat.le_of_lt hyz)] at h2
        · simp [hxy, Nat.not_lt.mpr (Nat.le_of_lt hxy)] at h1

/-- A string is below any extension of itself. -/
theorem strLe_append_self (a r : List Nat) : strLe a (a ++ r) = true := by
  induction a with
  | nil => rfl
  | cons c cs ih => simp [strLe, ih]

/-- Range membership characterizes prefixes: a stored string whose code
points all lie below the sentinel lies in the closed range between the
search string and the search string extended by the sentinel exactly when
the search string is a prefix of it.  This is the correctness statement of
the Firestore prefix range-scan trick. -/
theorem strRange_iff_isPrefix {p s : List Nat}
    (hs : ∀ c ∈ s, c < sentinel) :
    (strLe p s && strLe s (p ++ [sentinel])) = true ↔ p <+: s := by
  constructor
  · rintro h
    rw [Bool.and_eq_true] at h
    obtain ⟨h1, h2⟩ := h
    induction p generalizing s with
    | nil => exact List.nil_prefix
    | cons a as ih =>
      cases s with
      | nil => simp [strLe] at h1
      | cons b bs =>
        simp only [strLe, List.cons_append] at h1 h2
        rcases Nat.lt_trichotomy a b with hab | hab | hab
        · simp [hab, Nat.not_lt.mpr (Nat.le_of_lt hab)] at h2
        · subst hab
          simp only [Nat.lt_irrefl, if_false] at h1 h2
          have hbs : ∀ c ∈ bs, c < sentinel := fun c hc =>
            hs c (List.mem_cons_of_mem _ hc)
          exact (List.prefix_cons_inj a).mpr (ih hbs h1 h2)
        · simp [hab, Nat.not_lt.mpr (Nat.le_of_lt hab)] at h1
  · rintro ⟨r, rfl⟩
    rw [Bool.and_eq_true]
    refine ⟨strLe_append_self p r, ?_⟩
    induction p with
    | nil =>
      cases r with
      | nil => rfl
      | cons c cs =>
        have hc : c < sentinel := hs c (List.mem_cons_self _ _)
        simp [strLe, hc]
    | cons a as ih =>
      simp only [List.cons_append, strLe, Nat.lt_irrefl, if_false]
      exact ih (fun c hc => hs c (List.mem_cons_of_mem _ hc))

/-- Lowercasing never moves a code point above the sentinel. -/
theorem lowerChar_lt_sentinel {c : Nat} (h : c < sentinel) :
    lowerChar c < sentinel := by
  unfold lowerChar sentinel at *
  split <;> omega

/-- Lowercasing a string below the sentinel stays below the sentinel. -/
theorem toLower_lt_sentinel {s : List Nat} (h : ∀ c ∈ s, c < sentinel) :
    ∀ c ∈ toLower s, c < sentinel := by
  intro c hc
  rw [toLower, List.mem_map] at hc
  obtain ⟨d, hd, rfl⟩ := hc
  exact lowerChar_lt_sentinel (h d hd)

/-- Firestore value order is total on the domain values. -/
theorem valueLe_total (a b : Value) : valueLe a b = true ∨ valueLe b a = true := by
  cases a with
  | int m =>
    cases b with
    | int n => simp [valueLe]; omega
    | str t => left; rfl
  | str s =>
    cases b with
    | int n => right; rfl
    | str t => simpa [valueLe] using strLe_total s t

/-- Firestore value order is transitive on the domain values. -/
theorem valueLe_trans {a b c : Value} (h1 : valueLe a b = true)
    (h2 : valueLe b c = true) : valueLe a c = true := by
  cases a <;> cases b <;> cases c <;>
    simp_all [valueLe] <;> first | omega | exact strLe_trans h1 h2

/-- The optional-key order is total. -/
theorem fieldLe_total (a b : Option Value) :
    fieldLe a b = true ∨ fieldLe b a = true := by
  cases a with
  | none => left; rfl
  | some x =>
    cases b with
    | none => right; rfl
    | some y => simpa [fieldLe] using valueLe_total x y

/-- The optional-key order is transitive. -/
theorem fieldLe_trans {a b c : Option Value} (h1 : fieldLe a b = true)
    (h2 : fieldLe b c = true) : fieldLe a c = true := by
  cases a <;> cases b <;> cases c <;> simp_all [fieldLe]
  exact valueLe_trans h1 h2

instance instTotalDocRel (f : FKey) (o : SortOrder) :
    IsTotal (Nat × Doc) (docRel f o) := by
  constructor
  intro a b
  cases o with
  | asc => simpa [docRel, docLe] using
      fieldLe_total (lookupField a.2 f) (lookupField b.2 f)
  | desc => simpa [docRel, docLe] using
      fieldLe_total (lookupField b.2 f) (lookupField a.2 f)

instance instTransDocRel (f : FKey) (o : SortOrder) :
    IsTrans (Nat × Doc) (docRel f o) := by
  constructor
  intro a b c h1 h2
  cases o <;> simp only [docRel, docLe] at h1 h2 ⊢
  · exact fieldLe_trans h1 h2
  · exact fieldLe_trans h2 h1

/-- Association lookup over a concatenation prefers the left part. -/
theorem lookupField_append (x y : Doc) (k : FKey) :
    lookupField (x ++ y) k =
      match lookupField x k with
      | some v => some v
      | none => lookupField y k := by
  induction x with
  | nil => rfl
  | cons p rest ih =>
    obtain ⟨k2, v2⟩ := p
    by_cases h : k2 = k
    · simp [lookupField, h]
    · simp [lookupField, h, ih]

/-- Lookup in the rewritten copy of the base document. -/
theorem lookupField_overlay_map (b u : Doc) (k : FKey) :
    lookupField (b.map (fun p =>
        match lookupField u p.1 with
        | some v => (p.1, v)
        | none => p)) k =
      match lookupField b k with
      | none => none
      | some w =>
        match lookupField u k with
        | some v => some v
        | none => some w := by
  induction b with
  | nil => rfl
  | cons p rest ih =>
    obtain ⟨k2, v2⟩ := p
    by_cases h : k2 = k
    · subst h
      cases hu : lookupField u k2 <;> simp [lookupField, hu]
    · cases hu : lookupField u k2 <;> simp [lookupField, h, hu, ih]

/-- Lookup in the appended fresh fields, when the base lacks the key. -/
theorem lookupField_overlay_filter (b u : Doc) (k : FKey)
    (hb : lookupField b k = none) :
    lookupField (u.filter (fun p => (lookupField b p.1).isNone)) k =
      lookupField u k := by
  induction u with
  | nil => rfl
  | cons p rest ih =>
    obtain ⟨k3, v3⟩ := p
    by_cases h3 : k3 = k
    · subst h3
      simp [List.filter_cons, hb, lookupField]
    · cases hp : (lookupField b k3).isNone <;>
        simp [List.filter_cons, hp, lookupField, h3, ih]

/-- Reading a merged document: a key present in the update reads the update
value, any other key reads the base value.  This is the frame property of
both the JS object spread and the Firestore partial update. -/
theorem lookupField_overlay (b u : Doc) (k : FKey) :
    lookupField (overlay b u) k =
      match lookupField u k with
      | some v => some v
      | none => lookupField b k := by
  unfold overlay
  rw [lookupField_append, lookupField_overlay_map]
  cases hb : lookupField b k with
  | some w => cases lookupField u k <;> rfl
  | none =>
    rw [lookupField_overlay_filter b u k hb]
    cases lookupField u k <;> rfl

/-- Replacing an id in the document list makes lookups of that id see the
new data, provided the id was present. -/
theorem lookupAssoc_replace_self {l : List (Nat × Doc)} {id : Nat}
    {doc : Doc} (d : Doc) (h : lookupAssoc l id = some doc) :
    lookupAssoc (l.map (fun p => if p.1 = id then (p.1, d) else p)) id
      = some d := by
  induction l with
  | nil => simp [lookupAssoc] at h
  | cons p rest ih =>
    by_cases hp : p.1 = id
    · simp [lookupAssoc, hp]
    · simp only [lookupAssoc, if_neg hp] at h
      simp [lookupAssoc, if_neg hp, ih h]

/-- Replacing an id in the document list leaves lookups of any other id
unchanged. -/
theorem lookupAssoc_replace_other {l : List (Nat × Doc)} {id id2 : Nat}
    (d : Doc) (h : id2 ≠ id) :
    lookupAssoc (l.map (fun p => if p.1 = id then (p.1, d) else p)) id2
      = lookupAssoc l id2 := by
  induction l with
  | nil => rfl
  | cons p rest ih =>
    by_cases hp : p.1 = id
    · have hne : ¬ id = id2 := fun hh => h hh.symm
      simp [lookupAssoc, hp, hne, ih]
    · by_cases hq : p.1 = id2 <;> simp [lookupAssoc, hp, hq, h, ih]

/-- Replacing a stored document makes subsequent reads of that id see the
new data. -/
theorem lookupDoc_replaceDoc_self {s : Store} {id : Nat} {doc : Doc}
    (d : Doc) (h : lookupDoc s id = some doc) :
    lookupDoc (replaceDoc s id d) id = some d :=
  lookupAssoc_replace_self d h

/-- Replacing a stored document leaves every other id unchanged. -/
theorem lookupDoc_replaceDoc_other {s : Store} {id id2 : Nat} (d : Doc)
    (h : id2 ≠ id) :
    lookupDoc (replaceDoc s id d) id2 = lookupDoc s id2 :=
  lookupAssoc_replace_other d h

/-- Every document of the store after a replace is either the new data or a
document that was already stored. -/
theorem mem_replaceDoc {s : Store} {id : Nat} {d : Doc}
    {p : Nat × Doc} (h : p ∈ (replaceDoc s id d).docs) :
    p.2 = d ∨ p ∈ s.docs := by
  unfold replaceDoc at h
  simp only [List.mem_map] at h
  obtain ⟨q, hq, heq⟩ := h
  by_cases hqid : q.1 = id
  · rw [if_pos hqid] at heq
    left
    rw [← heq]
  · rw [if_neg hqid] at heq
    right
    rw [← heq]
    exact hq

/-- The spread of an update DTO never carries the internal search field. -/
theorem updDoc_nameSearch (u : UpdateProductDto) :
    lookupField (updDoc u) FKey.nameSearch = none := by
  obtain ⟨n, de, pr, st, c⟩ := u
  cases n <;> cases de <;> cases pr <;> cases st <;> cases c <;> rfl

/-- The spread of an update DTO carries exactly the name the DTO carries. -/
theorem updDoc_name (u : UpdateProductDto) :
    lookupField (updDoc u) FKey.name = u.name.map Value.str := by
  obtain ⟨n, de, pr, st, c⟩ := u
  cases n <;> cases de <;> cases pr <;> cases st <;> cases c <;> rfl

/-- When the update carries a nonempty name, the written data carries the
lowercased name as the search field. -/
theorem dataToUpdate_nameSearch_some (u : UpdateProductDto) (n : List Nat)
    (hn : u.name = some n) (hne : n ≠ []) :
    lookupField (dataToUpdate u) FKey.nameSearch
      = some (Value.str (toLower n)) := by
  unfold dataToUpdate
  rw [hn]
  dsimp only
  rw [if_neg hne, lookupField_append, updDoc_nameSearch]
  rfl

/-- When the update carries a nonempty name, the written data carries that
name. -/
theorem dataToUpdate_name_some (u : UpdateProductDto) (n : List Nat)
    (hn : u.name = some n) (hne : n ≠ []) :
    lookupField (dataToUpdate u) FKey.name = some (Value.str n) := by
  unfold dataToUpdate
  rw [hn]
  dsimp only
  rw [if_neg hne, lookupField_append, updDoc_name, hn]
  rfl

/-- When the update carries no name, the written data is exactly the DTO
spread, with neither name nor search field. -/
theorem dataToUpdate_none (u : UpdateProductDto) (hn : u.name = none) :
    dataToUpdate u = updDoc u ∧
    lookupField (dataToUpdate u) FKey.name = none ∧
    lookupField (dataToUpdate u) FKey.nameSearch = none := by
  unfold dataToUpdate
  rw [hn]
  refine ⟨rfl, ?_, ?_⟩
  · rw [updDoc_name, hn]; rfl
  · exact updDoc_nameSearch u

/-- The created document satisfies the search invariant by construction. -/
theorem dataWithSearchFields_fields (p : CreateProductDto) :
    lookupField (dataWithSearchFields p) FKey.name = some (Value.str p.name) ∧
    lookupField (dataWithSearchFields p) FKey.nameSearch
      = some (Value.str (toLower p.name)) := by
  constructor <;> rfl

/-- Characterization of ceiling division: `ceilNat a b` is the least
multiplier whose product with `b` reaches `a`. -/
theorem ceilNat_bounds (a b : Nat) (hb : 1 ≤ b) :
    a ≤ ceilNat a b * b ∧ ceilNat a b * b < a + b := by
  have h1 : b * ((a + b - 1) / b) + (a + b - 1) % b = a + b - 1 :=
    Nat.div_add_mod _ _
  have h2 : (a + b - 1) % b < b := Nat.mod_lt _ (by omega)
  unfold ceilNat
  rw [Nat.mul_comm]
  generalize hx : b * ((a + b - 1) / b) = x at h1 ⊢
  omega

/-- Code points of the name Wireless Mouse. -/
def nameWirelessMouse : List Nat :=
  [87, 105, 114, 101, 108, 101, 115, 115, 32, 77, 111, 117, 115, 101]

/-- Code points of the search string wire. -/
def filterWire : List Nat := [119, 105, 114, 101]

/-- Code points of the search string mouse. -/
def filterMouse : List Nat := [109, 111, 117, 115, 101]

/-- A concrete valid product input used by the witnesses. -/
def sampleDto : CreateProductDto :=
  ⟨nameWirelessMouse,
   [100, 101, 115, 99, 114, 105, 112, 116, 105, 111, 110],
   9999, 100,
   [69, 108, 101, 99, 116, 114, 111, 110, 105, 99, 115]⟩

/-- The store after creating the sample product in an empty store. -/
def sampleStore : Store := ⟨[(0, dataWithSearchFields sampleDto)], 1⟩

/-- C3: a query with page below 1 or page size outside 1..100 (for example
page 0 or page size 101) fails with BadRequestException and performs zero
store accesses, both at the adapter and as surfaced by the list operation;
a page size of exactly 100 is accepted. -/
theorem claim_C3 (s : Store) (o : QueryOptions) (q : QueryProductDto) :
    ((o.page < 1 ∨ o.limit < 1 ∨ 100 < o.limit) →
      getCollectionWithOptions s o = (Except.error AppError.badRequest, [])) ∧
    ((q.page < 1 ∨ q.limit < 1 ∨ 100 < q.limit) →
      findAll s q = Except.error AppError.badRequest) ∧
    (1 ≤ o.page → o.limit = 100 →
      ∃ res, getCollectionWithOptions s o
        = (Except.ok res, [StoreOp.queryGet, StoreOp.queryGet])) := by
  refine ⟨?_, ?_, ?_⟩
  · intro h
    unfold getCollectionWithOptions
    rw [if_pos h]
  · intro h
    unfold findAll getCollectionWithOptions
    rw [if_pos h]
  · intro hp hl
    unfold getCollectionWithOptions
    rw [if_neg (by omega)]
    exact ⟨_, rfl⟩

/-- Witness for C3 at page 0, page size 101, and page size exactly 100. -/
theorem claim_C3_witness :
    getCollectionWithOptions ⟨[], 0⟩ ⟨0, 10, {}, FKey.name, SortOrder.asc⟩
      = (Except.error AppError.badRequest, []) ∧
    findAll ⟨[], 0⟩ ⟨1, 101, none, none, none, none, FKey.name, SortOrder.asc⟩
      = Except.error AppError.badRequest ∧
    ∃ res, getCollectionWithOptions ⟨[], 0⟩ ⟨1, 100, {}, FKey.name, SortOrder.asc⟩
      = (Except.ok res, [StoreOp.queryGet, StoreOp.queryGet]) :=
  ⟨(claim_C3 ⟨[], 0⟩ ⟨0, 10, {}, FKey.name, SortOrder.asc⟩
      ⟨1, 10, none, none, none, none, FKey.name, SortOrder.asc⟩).1
    (Or.inl (by decide)),
   (claim_C3 ⟨[], 0⟩ ⟨1, 10, {}, FKey.name, SortOrder.asc⟩
      ⟨1, 101, none, none, none, none, FKey.name, SortOrder.asc⟩).2.1
    (Or.inr (Or.inr (by decide))),
   (claim_C3 ⟨[], 0⟩ ⟨1, 100, {}, FKey.name, SortOrder.asc⟩
      ⟨1, 10, none, none, none, none, FKey.name, SortOrder.asc⟩).2.2
    (by decide) rfl⟩

/-- C7: updating or deleting an id absent from the store fails with
NotFoundException, the resulting store equals the original store, and the
access trace consists of the single existence-check read, with no write
attempted; this holds at the product service and at the adapter. -/
theorem claim_C7 (s : Store) (id : Nat) (u : UpdateProductDto)
    (h : lookupDoc s id = none) :
    update s id u = (Except.error AppError.notFound, s, [StoreOp.docGet id]) ∧
    remove s id = (Except.error AppError.notFound, s, [StoreOp.docGet id]) ∧
    updateDocument s id (dataToUpdate u)
      = (Except.error AppError.notFound, s, [StoreOp.docGet id]) ∧
    deleteDocument s id
      = (Except.error AppError.notFound, s, [StoreOp.docGet id]) := by
  refine ⟨?_, ?_, ?_, ?_⟩ <;>
    simp [update, remove, getDocument, updateDocument, deleteDocument, h]

/-- Witness for C7 on the empty store. -/
theorem claim_C7_witness :
    update ⟨[], 0⟩ 0 ⟨none, none, none, none, none⟩
      = (Except.error AppError.notFound, ⟨[], 0⟩, [StoreOp.docGet 0]) ∧
    remove ⟨[], 0⟩ 0
      = (Except.error AppError.notFound, ⟨[], 0⟩, [StoreOp.docGet 0]) ∧
    updateDocument ⟨[], 0⟩ 0 (dataToUpdate ⟨none, none, none, none, none⟩)
      = (Except.error AppError.notFound, ⟨[], 0⟩, [StoreOp.docGet 0]) ∧
    deleteDocument ⟨[], 0⟩ 0
      = (Except.error AppError.notFound, ⟨[], 0⟩, [StoreOp.docGet 0]) :=
  claim_C7 ⟨[], 0⟩ 0 ⟨none, none, none, none, none⟩ rfl

/-- C9: the Access Guard admits a public operation unconditionally, for
every possible token presentation; a non-public operation is admitted with
the decoded identity attached exactly when the token verifies, and is
rejected with Unauthorized before reaching any handler when the token is
missing, malformed, expired or carries an invalid signature.  The token
verification side is modelled from the spec, since jwt-auth.guard.ts is not
among the provided sources. -/
theorem claim_C9 (req : RequestCtx) :
    (req.isPublic = true →
      ∀ t, canActivate { req with token := t }
        = Except.ok { req with token := t }) ∧
    (req.isPublic = false → ∀ p, req.token = TokenPresentation.valid p →
      canActivate req = Except.ok { req with user := some p }) ∧
    (req.isPublic = false → verifyToken req.token = none →
      canActivate req = Except.error AppError.unauthorized) := by
  refine ⟨?_, ?_, ?_⟩
  · intro h t
    simp [canActivate, h]
  · intro h p ht
    simp [canActivate, jwtCanActivate, h, ht, verifyToken]
  · intro h hv
    simp [canActivate, jwtCanActivate, h, hv]

/-- Witness for C9: a public request with no token is admitted, a protected
request with a valid token is admitted with the identity attached, and a
protected request with an expired token is rejected. -/
theorem claim_C9_witness :
    canActivate ⟨true, TokenPresentation.missing, none⟩
      = Except.ok ⟨true, TokenPresentation.missing, none⟩ ∧
    canActivate ⟨false, TokenPresentation.valid ⟨admin1Default, true⟩, none⟩
      = Except.ok ⟨false, TokenPresentation.valid ⟨admin1Default, true⟩,
          some ⟨admin1Default, true⟩⟩ ∧
    canActivate ⟨false, TokenPresentation.expired, none⟩
      = Except.error AppError.unauthorized :=
  ⟨(claim_C9 ⟨true, TokenPresentation.missing, none⟩).1 rfl
      TokenPresentation.missing,
   (claim_C9 ⟨false, TokenPresentation.valid ⟨admin1Default, true⟩, none⟩).2.1
      rfl ⟨admin1Default, true⟩ rfl,
   (claim_C9 ⟨false, TokenPresentation.expired, none⟩).2.2 rfl rfl⟩

/-- C8: login succeeds exactly when the credential pair matches one of the
configured admin users, in which case it returns the username together with
a token signing the payload of that username and the isAdmin flag true; on
any non-matching pair it fails with the single Unauthorized failure mode,
the same constant error whether or not the username exists. -/
theorem claim_C8 (cfg : AuthConfig) (username password : List Nat) :
    ((adminUsers cfg).any
        (fun a => a.username == username && a.password == password) = true →
      login cfg username password
        = Except.ok ⟨Token.signed ⟨username, true⟩, username⟩) ∧
    ((adminUsers cfg).any
        (fun a => a.username == username && a.password == password) = false →
      login cfg username password = Except.error AppError.unauthorized) := by
  constructor
  · intro h
    unfold login validateUser
    cases hf : (adminUsers cfg).find?
        (fun a => a.username == username && a.password == password) with
    | none =>
      rw [List.any_eq_true] at h
      obtain ⟨a, ha, hpa⟩ := h
      rw [List.find?_eq_none] at hf
      exact absurd hpa (by simpa using hf a ha)
    | some w =>
      have hw := List.find?_some hf
      have hmem := List.mem_of_find?_eq_some hf
      rw [Bool.and_eq_true, beq_iff_eq, beq_iff_eq] at hw
      have hadm : w.isAdmin = true := by
        simp only [adminUsers, List.mem_cons, List.mem_singleton] at hmem
        rcases hmem with rfl | rfl | h2 <;> first | rfl | cases h2
      dsimp only
      rw [hw.1, hadm]
  · intro h
    unfold login validateUser
    cases hf : (adminUsers cfg).find?
        (fun a => a.username == username && a.password == password) with
    | none => rfl
    | some w =>
      have hw := List.find?_some hf
      have hmem := List.mem_of_find?_eq_some hf
      rw [List.any_eq_false] at h
      exact absurd hw (by simpa using h w hmem)

/-- Witness for C8: the configured admin1 credential logs in and yields the
admin payload; a wrong password for the same username is rejected. -/
theorem claim_C8_witness :
    login ⟨none, some [112, 119], none, none⟩ admin1Default [112, 119]
      = Except.ok ⟨Token.signed ⟨admin1Default, true⟩, admin1Default⟩ ∧
    login ⟨none, some [112, 119], none, none⟩ admin1Default [120]
      = Except.error AppError.unauthorized :=
  ⟨(claim_C8 ⟨none, some [112, 119], none, none⟩ admin1Default [112, 119]).1
      (by decide),
   (claim_C8 ⟨none, some [112, 119], none, none⟩ admin1Default [120]).2
      (by decide)⟩

/-- C4: the claim states that after create the returned id can be fetched
and yields the caller-supplied visible fields, and that the derived search
field is never exposed by either operation.  The round trip of the visible
fields holds and the create response indeed omits the search field, but the
fetched document returned by findOne is the raw stored map, which contains
the nameSearch field: the code contradicts the non-exposure documented in
its own DTO comment.  This theorem evaluates the code at the failing
input. -/
theorem claim_C4 :
    create ⟨[], 0⟩ sampleDto
      = ((0, dtoDoc sampleDto), sampleStore, [StoreOp.docAdd 0]) ∧
    lookupField (dtoDoc sampleDto) FKey.nameSearch = none ∧
    (findOne sampleStore 0).1 = Except.ok (0, dataWithSearchFields sampleDto) ∧
    lookupField (dataWithSearchFields sampleDto) FKey.name
      = some (Value.str sampleDto.name) ∧
    lookupField (dataWithSearchFields sampleDto) FKey.description
      = some (Value.str sampleDto.description) ∧
    lookupField (dataWithSearchFields sampleDto) FKey.price
      = some (Value.int sampleDto.price) ∧
    lookupField (dataWithSearchFields sampleDto) FKey.stock
      = some (Value.int sampleDto.stock) ∧
    lookupField (dataWithSearchFields sampleDto) FKey.category
      = some (Value.str sampleDto.category) ∧
    lookupField (dataWithSearchFields sampleDto) FKey.nameSearch
      = some (Value.str (toLower sampleDto.name)) :=
  ⟨rfl, rfl, rfl, rfl, rfl, rfl, rfl, rfl, rfl⟩

/-- C6: updating an existing id succeeds; the store afterwards holds the old
document merged with the written data, so every field key absent from the
written data is unchanged and every field present in the update input is
overwritten; the operation returns the view assembled client-side from the
document fetched before the write overlaid with the update input, and the
trace shows the two existence reads followed by the single write. -/
theorem claim_C6 (s : Store) (id : Nat) (u : UpdateProductDto) (doc : Doc)
    (h : lookupDoc s id = some doc) :
    update s id u =
      (Except.ok (id, overlay doc (updDoc u)),
       replaceDoc s id (overlay doc (dataToUpdate u)),
       [StoreOp.docGet id, StoreOp.docGet id, StoreOp.docUpdate id]) ∧
    lookupDoc (replaceDoc s id (overlay doc (dataToUpdate u))) id
      = some (overlay doc (dataToUpdate u)) ∧
    (∀ k, lookupField (dataToUpdate u) k = none →
      lookupField (overlay doc (dataToUpdate u)) k = lookupField doc k) ∧
    (∀ k v, lookupField (dataToUpdate u) k = some v →
      lookupField (overlay doc (dataToUpdate u)) k = some v) := by
  refine ⟨?_, lookupDoc_replaceDoc_self _ h, ?_, ?_⟩
  · simp [update, getDocument, updateDocument, h]
  · intro k hk
    rw [lookupField_overlay, hk]
  · intro k v hk
    rw [lookupField_overlay, hk]

/-- Witness for C6: a price-only update on the sample store. -/
theorem claim_C6_witness :
    update sampleStore 0 ⟨none, none, some 500, none, none⟩ =
      (Except.ok (0, overlay (dataWithSearchFields sampleDto)
          (updDoc ⟨none, none, some 500, none, none⟩)),
       replaceDoc sampleStore 0 (overlay (dataWithSearchFields sampleDto)
          (dataToUpdate ⟨none, none, some 500, none, none⟩)),
       [StoreOp.docGet 0, StoreOp.docGet 0, StoreOp.docUpdate 0]) ∧
    lookupDoc (replaceDoc sampleStore 0 (overlay (dataWithSearchFields sampleDto)
        (dataToUpdate ⟨none, none, some 500, none, none⟩))) 0
      = some (overlay (dataWithSearchFields sampleDto)
          (dataToUpdate ⟨none, none, some 500, none, none⟩)) ∧
    (∀ k, lookupField (dataToUpdate ⟨none, none, some 500, none, none⟩) k = none →
      lookupField (overlay (dataWithSearchFields sampleDto)
          (dataToUpdate ⟨none, none, some 500, none, none⟩)) k
        = lookupField (dataWithSearchFields sampleDto) k) ∧
    (∀ k v, lookupField (dataToUpdate ⟨none, none, some 500, none, none⟩) k = some v →
      lookupField (overlay (dataWithSearchFields sampleDto)
          (dataToUpdate ⟨none, none, some 500, none, none⟩)) k = some v) :=
  claim_C6 sampleStore 0 ⟨none, none, some 500, none, none⟩
    (dataWithSearchFields sampleDto) rfl

/-- C10: the value returned by update is the id with the previously fetched
document overlaid with the update input, so its nameSearch field is the
pre-update stored one (the update input spread never carries nameSearch);
in particular, when the update changes the name the store afterwards holds
the re-derived lowercased name while the returned view still carries the
old search field, and when the name is unchanged the view still exposes the
stored nameSearch to the caller. -/
theorem claim_C10 (s : Store) (id : Nat) (u : UpdateProductDto) (doc : Doc)
    (h : lookupDoc s id = some doc) :
    (update s id u).1 = Except.ok (id, overlay doc (updDoc u)) ∧
    lookupField (overlay doc (updDoc u)) FKey.nameSearch
      = lookupField doc FKey.nameSearch ∧
    (∀ n, u.name = some n → n ≠ [] →
      lookupDoc (update s id u).2.1 id = some (overlay doc (dataToUpdate u)) ∧
      lookupField (overlay doc (dataToUpdate u)) FKey.nameSearch
        = some (Value.str (toLower n))) := by
  refine ⟨?_, ?_, ?_⟩
  · simp [update, getDocument, updateDocument, h]
  · rw [lookupField_overlay, updDoc_nameSearch]
  · intro n hn hne
    constructor
    · have hupd : (update s id u).2.1
          = replaceDoc s id (overlay doc (dataToUpdate u)) := by
        simp [update, getDocument, updateDocument, h]
      rw [hupd]
      exact lookupDoc_replaceDoc_self _ h
    · rw [lookupField_overlay, dataToUpdate_nameSearch_some u n hn hne]

/-- Witness for C10: renaming the sample product to mouse. -/
theorem claim_C10_witness :
    (update sampleStore 0 ⟨some filterMouse, none, none, none, none⟩).1
      = Except.ok (0, overlay (dataWithSearchFields sampleDto)
          (updDoc ⟨some filterMouse, none, none, none, none⟩)) ∧
    lookupField (overlay (dataWithSearchFields sampleDto)
        (updDoc ⟨some filterMouse, none, none, none, none⟩)) FKey.nameSearch
      = lookupField (dataWithSearchFields sampleDto) FKey.nameSearch ∧
    (∀ n, (⟨some filterMouse, none, none, none, none⟩ : UpdateProductDto).name
        = some n → n ≠ [] →
      lookupDoc (update sampleStore 0
          ⟨some filterMouse, none, none, none, none⟩).2.1 0
        = some (overlay (dataWithSearchFields sampleDto)
            (dataToUpdate ⟨some filterMouse, none, none, none, none⟩)) ∧
      lookupField (overlay (dataWithSearchFields sampleDto)
          (dataToUpdate ⟨some filterMouse, none, none, none, none⟩))
          FKey.nameSearch
        = some (Value.str (toLower n))) :=
  claim_C10 sampleStore 0 ⟨some filterMouse, none, none, none, none⟩
    (dataWithSearchFields sampleDto) rfl

/-- C2: for a stored product whose name consists of code points below the
sentinel (the realistic-input proviso of the range trick) and a nonempty
name filter, the name filter of the list operation matches the stored
document exactly when the lowercased filter is a prefix of the lowercased
product name.  In particular a product named Wireless Mouse is matched by
the filter wire and not by the filter mouse (see the witness). -/
theorem claim_C2 (p : CreateProductDto) (f : List Nat) (hf : f ≠ [])
    (hs : ∀ c ∈ p.name, c < sentinel) :
    matchesFilters (buildFilters { name := some f }) (dataWithSearchFields p)
        = true
      ↔ toLower f <+: toLower p.name := by
  have hlow : ∀ c ∈ toLower p.name, c < sentinel := toLower_lt_sentinel hs
  have hfs : fieldStr (dataWithSearchFields p) FKey.nameSearch
      = some (toLower p.name) := rfl
  have hkey : matchesFilters (buildFilters { name := some f })
        (dataWithSearchFields p)
      = (strLe (toLower f) (toLower p.name)
          && strLe (toLower p.name) (toLower f ++ [sentinel])) := by
    unfold matchesFilters buildFilters
    dsimp only
    rw [if_neg hf]
    dsimp only
    rw [hfs]
    simp [fieldInt, dataWithSearchFields, dtoDoc, lookupField]
  rw [hkey]
  exact strRange_iff_isPrefix hlow

/-- Witness for C2: the Wireless Mouse scenario, matched by the prefix wire
and not by the inner word mouse. -/
theorem claim_C2_witness :
    matchesFilters (buildFilters { name := some filterWire })
        (dataWithSearchFields sampleDto) = true ∧
    matchesFilters (buildFilters { name := some filterMouse })
        (dataWithSearchFields sampleDto) = false := by
  constructor
  · exact (claim_C2 sampleDto filterWire (by decide) (by decide)).mpr (by decide)
  · have h := claim_C2 sampleDto filterMouse (by decide) (by decide)
    cases hb : matchesFilters (buildFilters { name := some filterMouse })
        (dataWithSearchFields sampleDto) with
    | false => rfl
    | true => exact absurd (h.mp hb) (by decide)

/-- A document satisfies the search invariant when its search field holds
the lowercased copy of its name field. -/
def searchInv (d : Doc) : Prop :=
  ∀ n, lookupField d FKey.name = some (Value.str n) →
    lookupField d FKey.nameSearch = some (Value.str (toLower n))

/-- All stored documents satisfy the search invariant. -/
def storeInv (s : Store) : Prop :=
  ∀ p ∈ s.docs, searchInv p.2

/-- One product-service operation, for stating the invariant over arbitrary
operation sequences. -/
inductive POp where
  | createOp (p : CreateProductDto)
  | updateOp (id : Nat) (u : UpdateProductDto)
  | removeOp (id : Nat)

/-- The store reached by running one operation. -/
def applyOp (s : Store) : POp → Store
  | POp.createOp p => (create s p).2.1
  | POp.updateOp id u => (update s id u).2.1
  | POp.removeOp id => (remove s id).2.1

/-- Validity of an operation input: an update that carries a name carries a
nonempty one.  The upstream validation pipe enforces this (names are 3 to
100 characters), and the service relies on it because its search-field
rederivation is guarded by JS truthiness. -/
def validOp : POp → Prop
  | POp.updateOp _ u => ∀ n, u.name = some n → n ≠ []
  | _ => True

/-- An id that resolves to a document occurs with it in the store. -/
theorem lookupAssoc_mem {l : List (Nat × Doc)} {id : Nat} {doc : Doc}
    (h : lookupAssoc l id = some doc) : (id, doc) ∈ l := by
  induction l with
  | nil => simp [lookupAssoc] at h
  | cons p rest ih =>
    by_cases hp : p.1 = id
    · simp only [lookupAssoc, if_pos hp] at h
      cases h
      rw [← hp]
      exact List.mem_cons_self _ _
    · simp only [lookupAssoc, if_neg hp] at h
      exact List.mem_cons_of_mem _ (ih h)

/-- Creation preserves the search invariant: the new document carries the
lowercased name by construction. -/
theorem storeInv_create (s : Store) (p : CreateProductDto)
    (h : storeInv s) : storeInv (create s p).2.1 := by
  intro q hq
  simp only [create, addDocument, List.mem_append, List.mem_singleton] at hq
  rcases hq with hq | rfl
  · exact h q hq
  · intro n hn
    have : some (Value.str p.name) = some (Value.str n) := hn
    cases this
    rfl

/-- Update preserves the search invariant for valid inputs: either the name
is untouched together with the search field, or both are rewritten
consistently. -/
theorem storeInv_update (s : Store) (id : Nat) (u : UpdateProductDto)
    (hv : ∀ n, u.name = some n → n ≠ []) (h : storeInv s) :
    storeInv (update s id u).2.1 := by
  cases hd : lookupDoc s id with
  | none =>
    have : (update s id u).2.1 = s := by
      simp [update, getDocument, hd]
    rw [this]
    exact h
  | some doc =>
    have hupd : (update s id u).2.1
        = replaceDoc s id (overlay doc (dataToUpdate u)) := by
      simp [update, getDocument, updateDocument, hd]
    rw [hupd]
    intro q hq
    rcases mem_replaceDoc hq with hq2 | hq2
    · rw [hq2]
      intro n hn
      rw [lookupField_overlay] at hn ⊢
      cases hu : u.name with
      | some m =>
        have hne := hv m hu
        rw [dataToUpdate_name_some u m hu hne] at hn
        dsimp only at hn
        injection hn with hn2
        injection hn2 with hn3
        rw [dataToUpdate_nameSearch_some u m hu hne]
        dsimp only
        rw [hn3]
      | none =>
        obtain ⟨_, hname, hsearch⟩ := dataToUpdate_none u hu
        rw [hname] at hn
        rw [hsearch]
        exact h (id, doc) (lookupAssoc_mem hd) n hn
    · exact h q hq2

/-- Deletion preserves the search invariant: the remaining documents were
already stored. -/
theorem storeInv_remove (s : Store) (id : Nat) (h : storeInv s) :
    storeInv (remove s id).2.1 := by
  cases hd : lookupDoc s id with
  | none =>
    have : (remove s id).2.1 = s := by
      simp [remove, getDocument, hd]
    rw [this]
    exact h
  | some doc =>
    have hdel : (remove s id).2.1
        = ⟨s.docs.filter (fun p => p.1 != id), s.nextId⟩ := by
      simp [remove, getDocument, deleteDocument, hd]
    rw [hdel]
    intro q hq
    exact h q (List.mem_of_mem_filter hq)

/-- C5: the derived search field never goes stale: starting from any store
whose documents satisfy the search invariant (for instance the empty
store), every sequence of create, update and remove operations with valid
inputs leaves every stored document with nameSearch equal to the lowercased
name.  In particular each create writes nameSearch = lowercase(name) and
each name-carrying update rewrites it to the lowercase of the new name. -/
theorem claim_C5 (s : Store) (ops : List POp) (h : storeInv s)
    (hv : ∀ op ∈ ops, validOp op) :
    storeInv (ops.foldl applyOp s) := by
  induction ops generalizing s with
  | nil => exact h
  | cons op rest ih =>
    simp only [List.foldl_cons]
    refine ih (applyOp s op) ?_
      (fun op2 hop2 => hv op2 (List.mem_cons_of_mem _ hop2))
    have hvop := hv op (List.mem_cons_self _ _)
    cases op with
    | createOp p => exact storeInv_create s p h
    | updateOp id u => exact storeInv_update s id u hvop h
    | removeOp id => exact storeInv_remove s id h

/-- Witness for C5: create the sample product, then rename it. -/
theorem claim_C5_witness :
    storeInv (([POp.createOp sampleDto,
        POp.updateOp 0 ⟨some filterMouse, none, none, none, none⟩]).foldl
      applyOp ⟨[], 0⟩) := by
  apply claim_C5
  · intro p hp
    simp at hp
  · intro op hop
    simp only [List.mem_cons, List.mem_singleton] at hop
    rcases hop with rfl | rfl | hop
    · trivial
    · intro n hn
      cases hn
      decide
    · cases hop

/-- C1: for every valid query (page at least 1, page size between 1 and
100), the list operation succeeds and returns exactly the documents
matching the conjunction of the present filters, sorted by the chosen sort
field in the chosen order, with (page - 1) * pageSize documents skipped and
at most pageSize taken; the reported total is the count of all matching
documents, independent of page and page size, so a page beyond the
available data yields an empty items list with the true total rather than
an error; and the envelope satisfies totalPages = ceil(total / pageSize)
(characterized by the two ceiling bounds), hasNextPage exactly when
page < totalPages, and hasPreviousPage exactly when page > 1. -/
theorem claim_C1 (s : Store) (q : QueryProductDto)
    (h1 : 1 ≤ q.page) (h2 : 1 ≤ q.limit) (h3 : q.limit ≤ 100) :
    ∃ r, findAll s q = Except.ok r ∧
      r.items = ((sortedMatched s q).drop ((q.page - 1) * q.limit)).take
        q.limit ∧
      r.items.length ≤ q.limit ∧
      List.Sorted (docRel q.sortBy q.sortOrder) r.items ∧
      List.Perm (sortedMatched s q) (matchedDocs s q) ∧
      r.total = (matchedDocs s q).length ∧
      r.page = q.page ∧
      r.limit = q.limit ∧
      r.totalPages = ceilNat r.total q.limit ∧
      r.total ≤ r.totalPages * q.limit ∧
      r.totalPages * q.limit < r.total + q.limit ∧
      (r.hasNextPage = true ↔ r.page < r.totalPages) ∧
      (r.hasPreviousPage = true ↔ 1 < r.page) ∧
      ((matchedDocs s q).length ≤ (q.page - 1) * q.limit → r.items = []) := by
  have hcond : ¬ (q.page < 1 ∨ q.limit < 1 ∨ 100 < q.limit) := by omega
  have hget : getCollectionWithOptions s
        ⟨q.page, q.limit, buildFilters q, q.sortBy, q.sortOrder⟩
      = (Except.ok ⟨((sortedMatched s q).drop ((q.page - 1) * q.limit)).take
            q.limit, (matchedDocs s q).length⟩,
         [StoreOp.queryGet, StoreOp.queryGet]) := by
    unfold getCollectionWithOptions
    dsimp only
    rw [if_neg hcond]
    rfl
  refine ⟨⟨((sortedMatched s q).drop ((q.page - 1) * q.limit)).take q.limit,
      (matchedDocs s q).length, q.page, q.limit,
      ceilNat (matchedDocs s q).length q.limit,
      decide (q.page < ceilNat (matchedDocs s q).length q.limit),
      decide (1 < q.page)⟩,
    ?_, rfl, ?_, ?_, ?_, rfl, rfl, rfl, rfl, ?_, ?_, ?_, ?_, ?_⟩
  · unfold findAll
    rw [hget]
  · exact List.length_take_le _ _
  · exact List.Pairwise.sublist
      ((List.take_sublist _ _).trans (List.drop_sublist _ _))
      (List.sorted_insertionSort _ _)
  · exact List.perm_insertionSort _ _
  · exact (ceilNat_bounds _ _ h2).1
  · exact (ceilNat_bounds _ _ h2).2
  · exact decide_eq_true_iff
  · exact decide_eq_true_iff
  · intro hb
    have hlen : (sortedMatched s q).length = (matchedDocs s q).length :=
      (List.perm_insertionSort _ _).length_eq
    rw [List.drop_eq_nil_of_le (by rw [hlen]; exact hb)]
    exact List.take_nil

/-- Witness for C1: the default query on the sample store. -/
theorem claim_C1_witness :
    ∃ r, findAll sampleStore
        ⟨1, 10, none, none, none, none, FKey.name, SortOrder.asc⟩
      = Except.ok r ∧
      r.items = ((sortedMatched sampleStore
          ⟨1, 10, none, none, none, none, FKey.name, SortOrder.asc⟩).drop
            ((1 - 1) * 10)).take 10 ∧
      r.items.length ≤ 10 ∧
      List.Sorted (docRel FKey.name SortOrder.asc) r.items ∧
      List.Perm (sortedMatched sampleStore
          ⟨1, 10, none, none, none, none, FKey.name, SortOrder.asc⟩)
        (matchedDocs sampleStore
          ⟨1, 10, none, none, none, none, FKey.name, SortOrder.asc⟩) ∧
      r.total = (matchedDocs sampleStore
          ⟨1, 10, none, none, none, none, FKey.name, SortOrder.asc⟩).length ∧
      r.page = 1 ∧
      r.limit = 10 ∧
      r.totalPages = ceilNat r.total 10 ∧
      r.total ≤ r.totalPages * 10 ∧
      r.totalPages * 10 < r.total + 10 ∧
      (r.hasNextPage = true ↔ r.page < r.totalPages) ∧
      (r.hasPreviousPage = true ↔ 1 < r.page) ∧
      ((matchedDocs sampleStore
          ⟨1, 10, none, none, none, none, FKey.name, SortOrder.asc⟩).length
        ≤ (1 - 1) * 10 → r.items = []) :=
  claim_C1 sampleStore ⟨1, 10, none, none, none, none, FKey.name, SortOrder.asc⟩
    (by decide) (by decide) (by decide)

end Inventory
